import Mathlib

/-!
Verification of the cath-tools double-dynamic-programming alignment core.

Shallow Lean embeddings of the functions under scrutiny, translated from the
C++ sources:
  * `_num_comparable_impl` from
    `source/uni/structure/entry_querier/entry_querier.cpp`;
  * `compare_upper_cell` (and the normalisation computed in
    `populate_upper_score_matrix`) from `source/uni/ssap/ssap.cpp`;
  * `residues_have_similar_area_angle_props` from `source/uni/ssap/ssap.cpp`;
  * the `USED_IN_PREVIOUS_CODE` branch of `score_of_squared_distance` from
    `source/ssap/context_res.h`;
  * the gap-charging accumulation walk of `calculate_log_score` from
    `source/uni/ssap/ssap.cpp`;
  * the refinement loop of `alignment_refiner::iterate` and the entry-count
    checks of `alignment_refiner::iterate_step` /
    `iterate_step_for_alignment_split` from
    `source/alignment/alignment_refiner/alignment_refiner.cpp`.

C++ `double` values are modelled as `ℚ` (or `ℝ` where a square root is
taken), `size_t` as `ℕ` and `ptrdiff_t` (`score_type`) as `ℤ`.  Collaborators
whose code is not part of the sources here (the dynamic-programming aligner,
the window-index arithmetic, the residue data model's trivial accessors) are
abstracted as explicit parameters of the embeddings.
-/

namespace CathTools

/-! ## Entry querier: `_num_comparable_impl`

Translated from `cath::_num_comparable_impl` in
`source/uni/structure/entry_querier/entry_querier.cpp`:
if the length is too short to accommodate any comparable pairs return 0,
otherwise return `(length - num_excluded) * (length - num_excluded - 1)`. -/

def _num_comparable_impl (prm_num_excluded prm_length : ℕ) : ℕ :=
  if prm_length ≤ prm_num_excluded + 1 then 0
  else (prm_length - prm_num_excluded) * (prm_length - prm_num_excluded - 1)

/-- `cath::num_comparable` just feeds the querier's exclusion count to
`_num_comparable_impl` (`entry_querier.cpp`). -/
def num_comparable (num_excluded_on_either_size prm_length : ℕ) : ℕ :=
  _num_comparable_impl num_excluded_on_either_size prm_length

/-- Brute-force count of ordered pairs `(i, j)` with `i, j < L`, `i ≠ j` and
`|i - j| > n`, written directly from the specification's wording. -/
def bruteNumComparable (n L : ℕ) : ℕ :=
  ∑ i ∈ Finset.range L,
    ((Finset.range L).filter (fun j => i ≠ j ∧ n < (i - j) + (j - i))).card

lemma bruteNumComparable_inner_eq (n L i : ℕ) (hi : i < L) :
    (Finset.range L).filter (fun j => i ≠ j ∧ n < (i - j) + (j - i))
      = Finset.range (i - n) ∪ Finset.Ico (i + n + 1) L := by
  ext j
  simp only [Finset.mem_filter, Finset.mem_range, Finset.mem_union, Finset.mem_Ico]
  omega

lemma bruteNumComparable_inner_card (n L i : ℕ) (hi : i < L) :
    ((Finset.range L).filter (fun j => i ≠ j ∧ n < (i - j) + (j - i))).card
      = (i - n) + (L - (i + n + 1)) := by
  rw [bruteNumComparable_inner_eq n L i hi]
  rw [Finset.card_union_of_disjoint]
  · rw [Finset.card_range, Nat.card_Ico]
  · rw [Finset.disjoint_left]
    intro x hx hx'
    simp only [Finset.mem_range] at hx
    simp only [Finset.mem_Ico] at hx'
    omega

lemma sum_sub_const (n L : ℕ) :
    2 * ∑ i ∈ Finset.range L, (i - n) = (L - n) * (L - n - 1) := by
  induction L with
  | zero => simp
  | succ L ih =>
    rw [Finset.sum_range_succ, Nat.mul_add, ih]
    rcases Nat.lt_or_ge n L with h | h
    · obtain ⟨m, hm⟩ : ∃ m, L - n = m + 1 := ⟨L - n - 1, by omega⟩
      rw [hm, show L + 1 - n = m + 2 by omega]
      zify [show 1 ≤ m + 1 by omega, show 1 ≤ m + 2 by omega]
      ring
    · have h1 : L - n = 0 := by omega
      have h2 : L + 1 - n = 0 ∨ L + 1 - n = 1 := by omega
      rcases h2 with h2 | h2 <;> simp [h1, h2]

lemma bruteNumComparable_closed_form (n L : ℕ) :
    bruteNumComparable n L = (L - n) * (L - n - 1) := by
  unfold bruteNumComparable
  have h1 : ∀ i ∈ Finset.range L,
      ((Finset.range L).filter (fun j => i ≠ j ∧ n < (i - j) + (j - i))).card
        = (i - n) + (L - (i + n + 1)) := by
    intro i hi
    exact bruteNumComparable_inner_card n L i (Finset.mem_range.mp hi)
  rw [Finset.sum_congr rfl h1, Finset.sum_add_distrib]
  have h2 : ∑ i ∈ Finset.range L, (L - (i + n + 1))
      = ∑ i ∈ Finset.range L, (i - n) := by
    have h3 : ∀ i ∈ Finset.range L, L - (i + n + 1) = (L - 1 - i) - n := by
      intro i _
      omega
    rw [Finset.sum_congr rfl h3]
    exact Finset.sum_range_reflect (fun i => i - n) L
  rw [h2, ← Nat.two_mul, sum_sub_const]

lemma _num_comparable_impl_closed_form (n L : ℕ) :
    _num_comparable_impl n L = (L - n) * (L - n - 1) := by
  unfold _num_comparable_impl
  split_ifs with h
  · rw [show L - n - 1 = 0 by omega, Nat.mul_zero]
  · rfl

/-- C1: `_num_comparable_impl(n, L)` equals the brute-force count of ordered
pairs `(i, j)` with `i, j ∈ [0, L)`, `i ≠ j` and `|i - j| > n`; it returns
`(L - n) * (L - n - 1)` when `L > n + 1` and 0 otherwise; and the fixture
values `_num_comparable_impl(5, 100) = 8930`, `(5, 15) = 90`, `(4, 7) = 6`
all hold. -/
theorem num_comparable_matches_brute_force :
    (∀ n L : ℕ, _num_comparable_impl n L = bruteNumComparable n L)
    ∧ (∀ n L : ℕ, n + 1 < L → _num_comparable_impl n L = (L - n) * (L - n - 1))
    ∧ (∀ n L : ℕ, L ≤ n + 1 → _num_comparable_impl n L = 0)
    ∧ _num_comparable_impl 5 100 = 8930
    ∧ _num_comparable_impl 5 15 = 90
    ∧ _num_comparable_impl 4 7 = 6 := by
  refine ⟨?_, ?_, ?_, by decide, by decide, by decide⟩
  · intro n L
    rw [_num_comparable_impl_closed_form, bruteNumComparable_closed_form]
  · intro n L h
    rw [_num_comparable_impl_closed_form]
  · intro n L h
    unfold _num_comparable_impl
    rw [if_pos h]

/-! ## `residues_have_similar_area_angle_props`

Translated from `cath::residues_have_similar_area_angle_props` in
`source/uni/ssap/ssap.cpp`.  The residue data model is constructed outside
this core; only the four quantities the predicate reads are modelled:
the "buried" value `get_accessi_of_residue` (an `int`), the solvent
accessibility `get_access()` (a `size_t`), and the phi/psi dihedral angles
converted to degrees (`angle_in_degrees`, a `double`, modelled as `ℚ`).
`difference` is the absolute difference, `round` is C's round-half-away
(which on the non-negative values used here agrees with Mathlib's
round-half-up `round`), and the casts to `size_t` follow the source. -/

structure Residue where
  accessi : ℤ
  access : ℕ
  phi_in_degrees : ℚ
  psi_in_degrees : ℚ

def residues_have_similar_area_angle_props (global_res_sim_cutoff : ℕ)
    (prm_residue_i prm_residue_j : Residue) : Bool :=
  let buried_difference : ℕ := (prm_residue_i.accessi - prm_residue_j.accessi).natAbs
  let phi_angle_diff_in_degrees : ℕ :=
    (round |prm_residue_i.phi_in_degrees - prm_residue_j.phi_in_degrees|).toNat
  let psi_angle_diff_in_degrees : ℕ :=
    (round |prm_residue_i.psi_in_degrees - prm_residue_j.psi_in_degrees|).toNat
  let mean_angle_diff_in_degrees : ℕ :=
    (phi_angle_diff_in_degrees + psi_angle_diff_in_degrees) / 2
  let accessibility_sum : ℕ := prm_residue_i.access + prm_residue_j.access
  decide (buried_difference + accessibility_sum + mean_angle_diff_in_degrees
    < global_res_sim_cutoff)

/-- C5: `residues_have_similar_area_angle_props` holds iff the absolute
difference of the buried values, plus the SUM of the two accessibility
values, plus the mean of the rounded absolute phi- and psi-angle differences
in degrees, is strictly below the cutoff (default 150); and the predicate is
symmetric in its two residues. -/
theorem residues_have_similar_area_angle_props_iff_and_symm :
    ∀ (cutoff : ℕ) (ri rj : Residue),
      (residues_have_similar_area_angle_props cutoff ri rj = true ↔
        ((ri.accessi - rj.accessi).natAbs : ℚ)
          + ((ri.access : ℚ) + (rj.access : ℚ))
          + (((round |ri.phi_in_degrees - rj.phi_in_degrees|).toNat : ℚ)
              + ((round |ri.psi_in_degrees - rj.psi_in_degrees|).toNat : ℚ)) / 2
          < (cutoff : ℚ))
      ∧ residues_have_similar_area_angle_props cutoff ri rj
          = residues_have_similar_area_angle_props cutoff rj ri := by
  intro cutoff ri rj
  constructor
  · rw [residues_have_similar_area_angle_props, decide_eq_true_iff]
    set b : ℕ := (ri.accessi - rj.accessi).natAbs with hb
    set p : ℕ := (round |ri.phi_in_degrees - rj.phi_in_degrees|).toNat with hp
    set q : ℕ := (round |ri.psi_in_degrees - rj.psi_in_degrees|).toNat with hq
    set s : ℕ := ri.access + rj.access with hs
    have hcast : ((s : ℚ)) = (ri.access : ℚ) + (rj.access : ℚ) := by
      rw [hs]; push_cast; ring
    rw [← hcast]
    constructor
    · intro h
      have h2 : 2 * b + 2 * s + (p + q) < 2 * cutoff := by omega
      have h3 : (2 : ℚ) * b + 2 * s + ((p : ℚ) + q) < 2 * cutoff := by
        exact_mod_cast h2
      linarith
    · intro h
      have h2 : (2 : ℚ) * b + 2 * s + ((p : ℚ) + q) < 2 * cutoff := by linarith
      have h3 : 2 * b + 2 * s + (p + q) < 2 * cutoff := by exact_mod_cast h2
      omega
  · rw [residues_have_similar_area_angle_props,
      residues_have_similar_area_angle_props, decide_eq_decide]
    have h1 : (ri.accessi - rj.accessi).natAbs = (rj.accessi - ri.accessi).natAbs := by
      omega
    rw [h1, abs_sub_comm ri.phi_in_degrees, abs_sub_comm ri.psi_in_degrees,
      Nat.add_comm ri.access]

/-! ## `score_of_squared_distance`, `USED_IN_PREVIOUS_CODE` branch

Translated from the `USED_IN_PREVIOUS_CODE` case of
`cath::score_of_squared_distance` in `source/ssap/context_res.h`:
`scaled_a = A·s²`, `scaled_b = B·s²`, return 0 when the scaled squared
distance reaches `RESIDUE_MAX_DIST_SQ_CUTOFF·s²`... else
`scaled_a / (d + scaled_b)`.  The querier constants `RESIDUE_A_VALUE`,
`RESIDUE_B_VALUE`, `RESIDUE_MAX_DIST_SQ_CUTOFF` and the integer scaling live
in headers outside these sources, so they are parameters here; the theorem
assumes only their positivity. -/

def score_of_squared_distance_prev_code
    (residue_a_value residue_b_value residue_max_dist_sq_cutoff : ℚ)
    (int_scaling : ℚ) (scaled_squared_distance : ℚ) : ℚ :=
  let scaled_a := residue_a_value * int_scaling * int_scaling
  let scaled_b := residue_b_value * int_scaling * int_scaling
  if residue_max_dist_sq_cutoff * int_scaling * int_scaling ≤ scaled_squared_distance
  then 0
  else scaled_a / (scaled_squared_distance + scaled_b)

/-- C6: with positive querier constants `A`, `B` and positive integer scaling
`s`, the `USED_IN_PREVIOUS_CODE` score of a non-negative scaled squared
distance `d` is 0 exactly when `d ≥ RESIDUE_MAX_DIST_SQ_CUTOFF·s²`, and below
that cutoff it is strictly positive and strictly decreasing in `d`. -/
theorem score_of_squared_distance_prev_code_cutoff_and_monotone
    (A B C s : ℚ) (hA : 0 < A) (hB : 0 < B) (hs : 0 < s) :
    (∀ d : ℚ, 0 ≤ d →
      (score_of_squared_distance_prev_code A B C s d = 0 ↔ C * s * s ≤ d))
    ∧ (∀ d : ℚ, 0 ≤ d → d < C * s * s →
        0 < score_of_squared_distance_prev_code A B C s d)
    ∧ (∀ d₁ d₂ : ℚ, 0 ≤ d₁ → d₁ < d₂ → d₂ < C * s * s →
        score_of_squared_distance_prev_code A B C s d₂
          < score_of_squared_distance_prev_code A B C s d₁) := by
  have hA' : 0 < A * s * s := by positivity
  have hB' : 0 < B * s * s := by positivity
  have hpos : ∀ d : ℚ, 0 ≤ d → 0 < A * s * s / (d + B * s * s) := by
    intro d hd
    exact div_pos hA' (by linarith)
  refine ⟨?_, ?_, ?_⟩
  · intro d hd
    rw [score_of_squared_distance_prev_code]
    split_ifs with h
    · simp [h]
    · simp only [not_le] at h
      constructor
      · intro h0
        exact absurd h0 (ne_of_gt (hpos d hd))
      · intro h0
        exact absurd h0 (not_le.mpr h)
  · intro d hd hlt
    rw [score_of_squared_distance_prev_code, if_neg (not_le.mpr hlt)]
    exact hpos d hd
  · intro d₁ d₂ hd₁ hlt hcut
    rw [score_of_squared_distance_prev_code, score_of_squared_distance_prev_code,
      if_neg (not_le.mpr hcut), if_neg (not_le.mpr (lt_trans hlt hcut))]
    apply div_lt_div_of_pos_left hA' (by linarith)
    linarith

/-- Witness for C6 at the legacy residue constants `A = 500`, `B = 10`,
cutoff `= 40`, scaling `= 1000`: the score at the cutoff is 0, the score at
distance 0 is positive, and the score strictly decreases from `d = 0` to
`d = 1`. -/
theorem score_of_squared_distance_prev_code_witness :
    score_of_squared_distance_prev_code 500 10 40 1000 (40 * 1000 * 1000) = 0
    ∧ 0 < score_of_squared_distance_prev_code 500 10 40 1000 0
    ∧ score_of_squared_distance_prev_code 500 10 40 1000 1
        < score_of_squared_distance_prev_code 500 10 40 1000 0 := by
  have h := score_of_squared_distance_prev_code_cutoff_and_monotone 500 10 40 1000
    (by norm_num) (by norm_num) (by norm_num)
  exact ⟨(h.1 (40 * 1000 * 1000) (by norm_num)).mpr (by norm_num),
    h.2.1 0 le_rfl (by norm_num),
    h.2.2 0 1 le_rfl (by norm_num) (by norm_num)⟩

/-! ## `compare_upper_cell`

Translated from `cath::compare_upper_cell` in `source/uni/ssap/ssap.cpp`.
The lower-level dynamic-programming aligner (`ssap_code_dyn_prog_aligner`,
outside these sources) is abstracted: its resulting score and alignment are
inputs.  An alignment column holds an optional offset-1 position for each of
the two entries.  `score_type` is `ptrdiff_t`, modelled as `ℤ`; the `double`
normalisation as `ℚ`; `numeric_cast<score_type>` of a `double` truncates
toward zero.  `distance_score` is the querier's
`distance_score__offset_1` with the view-from pair already applied, and
`window_matrix_a_index` is `get_window_matrix_a_index__offset_1` (defined
outside these sources) with the lengths and window already applied.  The
upper score matrix is modelled as a total function from (row, compacted
column) to scores. -/

inductive compare_upper_cell_result where
  | ZERO
  | NON_ZERO_BELOW_THRESHOLD
  | SCORED
  deriving DecidableEq, Repr

def MIN_LOWER_MAT_RES_SCORE : ℤ := 10

/-- Truncation toward zero of a rational, the conversion applied by
`numeric_cast<score_type>` to the normalised `double` score. -/
def ratTruncToInt (q : ℚ) : ℤ :=
  if 0 ≤ q then ⌊q⌋ else -⌊-q⌋

abbrev AlignmentColumn : Type := Option ℕ × Option ℕ

/-- The cell update performed for one aligned column of the lower-level DP
path: add the distance score for the destination pair into the upper-matrix
cell at row `b_dest` and compacted column `window_matrix_a_index a_dest b_dest`. -/
def upper_cell_fold_step (distance_score : ℕ → ℕ → ℤ)
    (window_matrix_a_index : ℕ → ℕ → ℕ)
    (m : ℕ → ℕ → ℤ) (col : AlignmentColumn) : ℕ → ℕ → ℤ :=
  match col with
  | (some a_dest, some b_dest) =>
      fun b a =>
        if b = b_dest ∧ a = window_matrix_a_index a_dest b_dest
        then m b a + distance_score a_dest b_dest
        else m b a
  | _ => m

/-- The residue branch of `compare_upper_cell`'s normalisation step: divide
the DP score by the normalisation unless the latter is exactly 0, in which
case set the score to 0. -/
def normalised_residue_score (prm_normalisation : ℚ) (dp_score : ℤ) : ℤ :=
  if prm_normalisation ≠ 0
  then ratTruncToInt ((dp_score : ℚ) / prm_normalisation)
  else 0

def compare_upper_cell (res_not_ss : Bool) (prm_normalisation : ℚ)
    (dp_score : ℤ) (dp_alignment : List AlignmentColumn)
    (distance_score : ℕ → ℕ → ℤ) (window_matrix_a_index : ℕ → ℕ → ℕ)
    (upper_score_matrix : ℕ → ℕ → ℤ) :
    compare_upper_cell_result × (ℕ → ℕ → ℤ) :=
  let score : ℤ :=
    if res_not_ss then normalised_residue_score prm_normalisation dp_score
    else dp_score
  if score = 0 then
    (compare_upper_cell_result.ZERO, upper_score_matrix)
  else if res_not_ss ∧ score < MIN_LOWER_MAT_RES_SCORE then
    (compare_upper_cell_result.NON_ZERO_BELOW_THRESHOLD, upper_score_matrix)
  else
    (compare_upper_cell_result.SCORED,
      dp_alignment.foldl (upper_cell_fold_step distance_score window_matrix_a_index)
        upper_score_matrix)

/-- The total contribution a SCORED call adds to the upper-matrix cell at row
`b`, compacted column `a`: the distance scores of exactly those DP-alignment
columns that have both positions present and whose destination pair lands on
that cell. -/
def scored_cell_addend (distance_score : ℕ → ℕ → ℤ)
    (window_matrix_a_index : ℕ → ℕ → ℕ)
    (dp_alignment : List AlignmentColumn) (b a : ℕ) : ℤ :=
  (dp_alignment.filterMap (fun col =>
    match col with
    | (some a_dest, some b_dest) =>
        if b = b_dest ∧ a = window_matrix_a_index a_dest b_dest
        then some (distance_score a_dest b_dest)
        else none
    | _ => none)).sum

lemma upper_cell_foldl_apply (distance_score : ℕ → ℕ → ℤ)
    (window_matrix_a_index : ℕ → ℕ → ℕ)
    (l : List AlignmentColumn) (m : ℕ → ℕ → ℤ) (b a : ℕ) :
    (l.foldl (upper_cell_fold_step distance_score window_matrix_a_index) m) b a
      = m b a + scored_cell_addend distance_score window_matrix_a_index l b a := by
  induction l generalizing m with
  | nil => simp [scored_cell_addend]
  | cons col t ih =>
    rcases col with ⟨oa, ob⟩
    rcases oa with _ | a_dest <;> rcases ob with _ | b_dest
    · rw [List.foldl_cons, ih]
      simp [upper_cell_fold_step, scored_cell_addend]
    · rw [List.foldl_cons, ih]
      simp [upper_cell_fold_step, scored_cell_addend]
    · rw [List.foldl_cons, ih]
      simp [upper_cell_fold_step, scored_cell_addend]
    · rw [List.foldl_cons, ih]
      by_cases hc : b = b_dest ∧ a = window_matrix_a_index a_dest b_dest
      · simp only [upper_cell_fold_step, scored_cell_addend, List.filterMap_cons,
          if_pos hc, List.sum_cons]
        ring
      · simp only [upper_cell_fold_step, scored_cell_addend, List.filterMap_cons,
          if_neg hc]

/-- C2: `compare_upper_cell` leaves the upper score matrix unchanged when it
returns ZERO or NON_ZERO_BELOW_THRESHOLD; when it returns SCORED, every cell
of the resulting matrix holds its old value plus the distance scores of
exactly those columns of the lower-level DP alignment that have both
positions present and whose destination pair corresponds to that cell. -/
theorem compare_upper_cell_frame_effect (res_not_ss : Bool)
    (prm_normalisation : ℚ) (dp_score : ℤ) (dp_alignment : List AlignmentColumn)
    (distance_score : ℕ → ℕ → ℤ) (window_matrix_a_index : ℕ → ℕ → ℕ)
    (upper_score_matrix : ℕ → ℕ → ℤ) :
    ((compare_upper_cell res_not_ss prm_normalisation dp_score dp_alignment
        distance_score window_matrix_a_index upper_score_matrix).1
          ≠ compare_upper_cell_result.SCORED →
      (compare_upper_cell res_not_ss prm_normalisation dp_score dp_alignment
        distance_score window_matrix_a_index upper_score_matrix).2
          = upper_score_matrix)
    ∧ ((compare_upper_cell res_not_ss prm_normalisation dp_score dp_alignment
        distance_score window_matrix_a_index upper_score_matrix).1
          = compare_upper_cell_result.SCORED →
      ∀ b a : ℕ,
        (compare_upper_cell res_not_ss prm_normalisation dp_score dp_alignment
          distance_score window_matrix_a_index upper_score_matrix).2 b a
            = upper_score_matrix b a
              + scored_cell_addend distance_score window_matrix_a_index
                  dp_alignment b a) := by
  rw [compare_upper_cell]
  split_ifs
  all_goals refine ⟨fun hne => ?_, fun hsc => ?_⟩
  all_goals first
    | rfl
    | exact absurd rfl hne
    | exact hsc.elim
    | exact fun b a => upper_cell_foldl_apply distance_score
        window_matrix_a_index dp_alignment upper_score_matrix b a

/-- Witness for C2 at a concrete SCORED call: a secondary-structure call with
DP score 5 and a single aligned column `(1, 2)`; the cell at row 2, compacted
column 1 gains the distance score 3. -/
theorem compare_upper_cell_frame_effect_witness :
    (compare_upper_cell false 1 5 [(some 1, some 2), (none, some 1)]
      (fun _ _ => 3) (fun a _ => a) (fun _ _ => 0)).2 2 1 = 3 := by
  have h := (compare_upper_cell_frame_effect false 1 5
    [(some 1, some 2), (none, some 1)]
    (fun _ _ => 3) (fun a _ => a) (fun _ _ => 0)).2 (by decide) 2 1
  rw [h]
  decide

/-- C10: whenever the supplied normalisation is exactly 0, the residue branch
of `compare_upper_cell` sets the score to 0 instead of dividing, so the call
returns ZERO and leaves the upper score matrix unchanged — and this holds for
every DP score, confirming that no division result is consulted. -/
theorem compare_upper_cell_zero_normalisation_guard
    (prm_normalisation : ℚ) (dp_score : ℤ) (dp_alignment : List AlignmentColumn)
    (distance_score : ℕ → ℕ → ℤ) (window_matrix_a_index : ℕ → ℕ → ℕ)
    (upper_score_matrix : ℕ → ℕ → ℤ)
    (hnorm : prm_normalisation = 0) :
    (compare_upper_cell true prm_normalisation dp_score dp_alignment
      distance_score window_matrix_a_index upper_score_matrix)
        = (compare_upper_cell_result.ZERO, upper_score_matrix) := by
  subst hnorm
  rw [compare_upper_cell]
  simp [normalised_residue_score]

/-- Witness for C10: a zero-normalisation residue call with a huge DP score
and a nonempty alignment still returns ZERO and the unchanged (zero) matrix. -/
theorem compare_upper_cell_zero_normalisation_guard_witness :
    (compare_upper_cell true 0 1000000 [(some 1, some 1)]
      (fun _ _ => 7) (fun a _ => a) (fun _ _ => 0)).1
        = compare_upper_cell_result.ZERO := by
  have h := compare_upper_cell_zero_normalisation_guard 0 1000000
    [(some 1, some 1)] (fun _ _ => 7) (fun a _ => a) (fun _ _ => 0) rfl
  rw [h]

/-! ## The normalisation computed in `populate_upper_score_matrix`

Translated from `cath::populate_upper_score_matrix` in
`source/uni/ssap/ssap.cpp`: `length_a` is always the full length of protein
A, but `length_b` is `global_num_selections` when the call is a residue
align pass (`using_selections`), and the full length of protein B otherwise;
the normalisation is
`global_frac_selected * sqrt(normalisation_num * min(length_a, length_b))`
with `normalisation_num = 200` for residues and `25` for secondary
structures. -/

noncomputable def populate_upper_score_matrix_normalisation
    (res_not_ss prm_align_pass : Bool) (global_frac_selected : ℝ)
    (full_length_a full_length_b global_num_selections : ℕ) : ℝ :=
  let using_selections := res_not_ss && prm_align_pass
  let length_a := full_length_a
  let length_b := if using_selections then global_num_selections else full_length_b
  let normalisation_num : ℝ := if res_not_ss then 200 else 25
  global_frac_selected * Real.sqrt (normalisation_num * (min length_a length_b : ℕ))

/-- The normalisation as the claim words it: `frac_selected *
sqrt(K * min(len_a, len_b))` where `len_a`, `len_b` are the residue counts of
the two proteins being compared. -/
noncomputable def claimed_normalisation (res_not_ss : Bool)
    (frac_selected : ℝ) (len_a len_b : ℕ) : ℝ :=
  frac_selected
    * Real.sqrt ((if res_not_ss then (200 : ℝ) else 25) * (min len_a len_b : ℕ))

/-- C3 counterexample: on a residue align pass (`using_selections`) with one
selection, full lengths 4 and 4, and `frac_selected = 1`, the code's
normalisation is `sqrt 200` while the claimed formula over the two proteins'
residue counts gives `sqrt 800`. -/
theorem populate_normalisation_counterexample :
    populate_upper_score_matrix_normalisation true true 1 4 4 1
      ≠ claimed_normalisation true 1 4 4 := by
  have h1 : populate_upper_score_matrix_normalisation true true 1 4 4 1
      = Real.sqrt 200 := by
    rw [populate_upper_score_matrix_normalisation]
    norm_num
  have h2 : claimed_normalisation true 1 4 4 = Real.sqrt 800 := by
    rw [claimed_normalisation]
    norm_num
  rw [h1, h2]
  exact ne_of_lt (Real.sqrt_lt_sqrt (by norm_num) (by norm_num))

/-- C3 (amended): the normalisation equals
`frac_selected * sqrt(K * min(length_a, length_b))` with `K = 200` for
residues and `25` for secondary structures, where `length_a` is protein A's
entry count and `length_b` is the number of saved selections on a residue
align pass and protein B's entry count otherwise; and for residues the
result is classified ZERO exactly when the normalised score is 0,
NON_ZERO_BELOW_THRESHOLD exactly when it is non-zero but below
`MIN_LOWER_MAT_RES_SCORE = 10`, and SCORED exactly when it reaches 10. -/
theorem populate_normalisation_and_classification :
    (∀ (res_not_ss prm_align_pass : Bool) (global_frac_selected : ℝ)
        (full_length_a full_length_b global_num_selections : ℕ),
      populate_upper_score_matrix_normalisation res_not_ss prm_align_pass
          global_frac_selected full_length_a full_length_b global_num_selections
        = global_frac_selected
            * Real.sqrt ((if res_not_ss then (200 : ℝ) else 25)
                * (min full_length_a
                    (if res_not_ss && prm_align_pass then global_num_selections
                     else full_length_b) : ℕ)))
    ∧ MIN_LOWER_MAT_RES_SCORE = 10
    ∧ (∀ (prm_normalisation : ℚ) (dp_score : ℤ)
        (dp_alignment : List AlignmentColumn)
        (distance_score : ℕ → ℕ → ℤ) (window_matrix_a_index : ℕ → ℕ → ℕ)
        (upper_score_matrix : ℕ → ℕ → ℤ),
        ((compare_upper_cell true prm_normalisation dp_score dp_alignment
            distance_score window_matrix_a_index upper_score_matrix).1
              = compare_upper_cell_result.ZERO
          ↔ normalised_residue_score prm_normalisation dp_score = 0)
        ∧ ((compare_upper_cell true prm_normalisation dp_score dp_alignment
            distance_score window_matrix_a_index upper_score_matrix).1
              = compare_upper_cell_result.NON_ZERO_BELOW_THRESHOLD
          ↔ normalised_residue_score prm_normalisation dp_score ≠ 0
            ∧ normalised_residue_score prm_normalisation dp_score
                < MIN_LOWER_MAT_RES_SCORE)
        ∧ ((compare_upper_cell true prm_normalisation dp_score dp_alignment
            distance_score window_matrix_a_index upper_score_matrix).1
              = compare_upper_cell_result.SCORED
          ↔ MIN_LOWER_MAT_RES_SCORE
              ≤ normalised_residue_score prm_normalisation dp_score)) := by
  refine ⟨?_, rfl, ?_⟩
  · intro res_not_ss prm_align_pass frac fa fb nsel
    rw [populate_upper_score_matrix_normalisation]
  · intro prm_normalisation dp_score dp_alignment distance_score
      window_matrix_a_index upper_score_matrix
    rw [compare_upper_cell]
    simp only [if_true, MIN_LOWER_MAT_RES_SCORE]
    split_ifs with h0 h10
    · refine ⟨?_, ?_, ?_⟩ <;> constructor <;> intro h <;> simp_all
    · refine ⟨?_, ?_, ?_⟩ <;> constructor <;> intro h <;> simp_all
      omega
    · refine ⟨?_, ?_, ?_⟩ <;> constructor <;> intro h <;> simp_all

/-! ## Final SSAP log scores (`calculate_log_score`)

The three normalised log-scaled scores computed at the end of
`cath::calculate_log_score` in `source/uni/ssap/ssap.cpp` share one formula:
`100 * log(maxscore * 1000 / denominator) / log(optimum_single_score * 1000)`,
where the denominator is the compared-pair count, `num_comparable` of the
smaller length, or `num_comparable` of the larger length. -/

noncomputable def final_ssap_log_score (maxscore : ℤ) (denominator : ℕ)
    (optimum_single_score : ℝ) : ℝ :=
  100 * Real.log ((maxscore : ℝ) * 1000 / (denominator : ℝ))
    / Real.log (optimum_single_score * 1000)

lemma num_comparable_mono (n L₁ L₂ : ℕ) (h : L₁ ≤ L₂) :
    num_comparable n L₁ ≤ num_comparable n L₂ := by
  rw [num_comparable, num_comparable, _num_comparable_impl_closed_form,
    _num_comparable_impl_closed_form]
  exact Nat.mul_le_mul (by omega) (by omega)

/-- C9: when the clamped total is non-zero and both `num_comparable`
denominators are positive (so `calculate_log_score` sets both scores), the
over-larger SSAP score is at most the over-smaller one, since
`num_comparable` is non-decreasing in the length and the shared log formula
is non-increasing in its denominator. -/
theorem ssap_score_over_larger_le_over_smaller
    (n len_a len_b : ℕ) (maxscore : ℤ) (optimum_single_score : ℝ)
    (hmax : 0 < maxscore)
    (hmin_pos : 0 < num_comparable n (min len_a len_b))
    (hmax_pos : 0 < num_comparable n (max len_a len_b))
    (hopt : 1 < optimum_single_score * 1000) :
    final_ssap_log_score maxscore (num_comparable n (max len_a len_b))
        optimum_single_score
      ≤ final_ssap_log_score maxscore (num_comparable n (min len_a len_b))
          optimum_single_score := by
  have hd : num_comparable n (min len_a len_b)
      ≤ num_comparable n (max len_a len_b) :=
    num_comparable_mono n _ _ (min_le_max)
  have hd1 : (0 : ℝ) < (num_comparable n (min len_a len_b) : ℝ) := by
    exact_mod_cast hmin_pos
  have hd2 : (0 : ℝ) < (num_comparable n (max len_a len_b) : ℝ) := by
    exact_mod_cast hmax_pos
  have hm : (0 : ℝ) < (maxscore : ℝ) * 1000 := by
    have : (0 : ℝ) < (maxscore : ℝ) := by exact_mod_cast hmax
    linarith
  have hx2 : (0 : ℝ)
      < (maxscore : ℝ) * 1000 / (num_comparable n (max len_a len_b) : ℝ) :=
    div_pos hm hd2
  have hdR : (num_comparable n (min len_a len_b) : ℝ)
      ≤ (num_comparable n (max len_a len_b) : ℝ) := by exact_mod_cast hd
  have hxle : (maxscore : ℝ) * 1000 / (num_comparable n (max len_a len_b) : ℝ)
      ≤ (maxscore : ℝ) * 1000 / (num_comparable n (min len_a len_b) : ℝ) := by
    gcongr
  have hlog : Real.log ((maxscore : ℝ) * 1000
        / (num_comparable n (max len_a len_b) : ℝ))
      ≤ Real.log ((maxscore : ℝ) * 1000
        / (num_comparable n (min len_a len_b) : ℝ)) :=
    Real.log_le_log hx2 hxle
  have hlogk : 0 < Real.log (optimum_single_score * 1000) := Real.log_pos hopt
  rw [final_ssap_log_score, final_ssap_log_score]
  exact (div_le_div_iff_of_pos_right hlogk).mpr (by linarith)

/-- Witness for C9 at exclusion radius 5, lengths 15 and 100, clamped total 1
and the legacy residue optimum single score 50. -/
theorem ssap_score_over_larger_le_over_smaller_witness :
    final_ssap_log_score 1 (num_comparable 5 (max 15 100)) 50
      ≤ final_ssap_log_score 1 (num_comparable 5 (min 15 100)) 50 :=
  ssap_score_over_larger_le_over_smaller 5 15 100 1 50 (by decide)
    (by decide) (by decide) (by norm_num)

/-! ## The alignment refiner

Translated from `source/alignment/alignment_refiner/alignment_refiner.cpp`.
The alignment type and the split/mapping/DP machinery are defined outside
these sources, so the alignment is an abstract type with decidable equality
and a refinement step (`iterate_step`) is an abstract function returning the
`(inserted_residues, next_alignment)` pair.  `refiner_iterate_loop` is the
while-loop of `alignment_refiner::iterate`, fuelled (the original loop has no
iteration cap and need not terminate) and instrumented with a counter of
executed refinement steps; `prev_alignment` starts as the sentinel empty
pair alignment and `inserted_residues` starts true. -/

def refiner_iterate_loop {A : Type} [DecidableEq A] (step : A → Bool × A) :
    ℕ → A → A → Bool → ℕ → Option (A × ℕ)
  | 0, _, _, _, _ => none
  | fuel + 1, prev_alignment, curr_alignment, inserted_residues, steps =>
    if inserted_residues = true ∨ curr_alignment ≠ prev_alignment then
      if (step curr_alignment).2 = prev_alignment then
        some ((step curr_alignment).2, steps + 1)
      else
        refiner_iterate_loop step fuel curr_alignment (step curr_alignment).2
          (step curr_alignment).1 (steps + 1)
    else some (curr_alignment, steps)

def refiner_iterate {A : Type} [DecidableEq A] (step : A → Bool × A)
    (fuel : ℕ) (sentinel arg_alignment : A) : Option (A × ℕ) :=
  refiner_iterate_loop step fuel sentinel arg_alignment true 0

lemma refiner_iterate_loop_steps_le {A : Type} [DecidableEq A]
    (step : A → Bool × A) :
    ∀ (fuel : ℕ) (prev curr : A) (ins : Bool) (s : ℕ) (r : A) (m : ℕ),
      refiner_iterate_loop step fuel prev curr ins s = some (r, m) → s ≤ m := by
  intro fuel
  induction fuel with
  | zero => intro prev curr ins s r m h; exact absurd h (by simp [refiner_iterate_loop])
  | succ fuel ih =>
    intro prev curr ins s r m h
    rw [refiner_iterate_loop] at h
    by_cases h1 : ins = true ∨ curr ≠ prev
    · rw [if_pos h1] at h
      by_cases h2 : (step curr).2 = prev
      · rw [if_pos h2] at h
        simp only [Option.some.injEq, Prod.mk.injEq] at h
        omega
      · rw [if_neg h2] at h
        exact Nat.le_of_succ_le
          (ih curr (step curr).2 (step curr).1 (s + 1) r m h)
    · rw [if_neg h1] at h
      simp only [Option.some.injEq, Prod.mk.injEq] at h
      omega

/-- C4: the refinement loop of `alignment_refiner::iterate` (a) always
executes at least one refinement step whenever it returns (the
`inserted_residues` flag starts true, so the loop condition initially
holds); (b) whenever a step's output equals the alignment from two steps
earlier (the pre-rotation `prev_alignment`), the loop stops right there and
returns that alignment, regardless of the step's `inserted_residues` flag;
and (c) consequently a period-2 oscillation between two alignments
terminates within two steps even when residues are reported inserted. -/
theorem alignment_refiner_iterate_terminates_on_two_step_cycle :
    (∀ (A : Type) [DecidableEq A] (step : A → Bool × A) (fuel : ℕ)
        (sentinel arg_alignment r : A) (m : ℕ),
      refiner_iterate step fuel sentinel arg_alignment = some (r, m) → 1 ≤ m)
    ∧ (∀ (A : Type) [DecidableEq A] (step : A → Bool × A) (fuel : ℕ)
        (prev curr : A) (ins : Bool) (s : ℕ),
      (ins = true ∨ curr ≠ prev) → (step curr).2 = prev →
        refiner_iterate_loop step (fuel + 1) prev curr ins s
          = some (prev, s + 1))
    ∧ (∀ (A : Type) [DecidableEq A] (step : A → Bool × A)
        (a b sentinel : A) (ins_a ins_b : Bool) (fuel : ℕ),
      step a = (ins_a, b) → step b = (ins_b, a) → 2 ≤ fuel →
        ∃ (r : A) (m : ℕ),
          refiner_iterate step fuel sentinel a = some (r, m) ∧ m ≤ 2) := by
  refine ⟨?_, ?_, ?_⟩
  · intro A _ step fuel sentinel a0 r m h
    rw [refiner_iterate] at h
    cases fuel with
    | zero => exact absurd h (by simp [refiner_iterate_loop])
    | succ fuel =>
      rw [refiner_iterate_loop, if_pos (Or.inl rfl)] at h
      by_cases h2 : (step a0).2 = sentinel
      · rw [if_pos h2] at h
        simp only [Option.some.injEq, Prod.mk.injEq] at h
        omega
      · rw [if_neg h2] at h
        exact refiner_iterate_loop_steps_le step fuel a0 (step a0).2
          (step a0).1 1 r m h
  · intro A _ step fuel prev curr ins s hcond hstep
    rw [refiner_iterate_loop, if_pos hcond, if_pos hstep, hstep]
  · intro A _ step a b sentinel ins_a ins_b fuel hab hba hfuel
    obtain ⟨f, rfl⟩ : ∃ f, fuel = f + 2 := ⟨fuel - 2, by omega⟩
    rw [refiner_iterate, refiner_iterate_loop, if_pos (Or.inl rfl), hab]
    dsimp only
    by_cases hsen : b = sentinel
    · rw [if_pos hsen]
      exact ⟨b, 0 + 1, by rw [hsen], by omega⟩
    · rw [if_neg hsen]
      by_cases hcond : ins_a = true ∨ b ≠ a
      · rw [refiner_iterate_loop, if_pos hcond, hba]
        dsimp only
        rw [if_pos rfl]
        exact ⟨a, 0 + 1 + 1, rfl, by omega⟩
      · rw [refiner_iterate_loop, if_neg hcond]
        exact ⟨b, 0 + 1, rfl, by omega⟩

/-! ## Entry-count checks in the alignment refiner's step functions

Translated from `alignment_refiner::iterate_step` and
`alignment_refiner::iterate_step_for_alignment_split` in
`source/alignment/alignment_refiner/alignment_refiner.cpp`: each checks its
entry counts and throws `not_implemented_exception` before any further work.
The alignment, protein, view-cache-list and gap-penalty types and the actual
refinement work (`iterate_step_for_alignment_split_list` and the
mapping/DP/rebuild machinery, defined outside these sources) are abstract
parameters, so the theorems can show the work is never invoked on the error
path.  `alignment_split::get_num_entries` is a trivial accessor defined
outside these sources and is modelled as the field of a one-field record. -/

inductive RefinerCheckError where
  | mismatched_protein_list_entries
  | mismatched_split_entries
  deriving DecidableEq, Repr

structure AlignmentSplit where
  get_num_entries : ℕ

def alignment_refiner_iterate_step {A P V G R : Type} (num_entries : A → ℕ)
    (iterate_step_for_alignment_split_list : A → List P → V → G → R)
    (arg_alignment : A) (arg_proteins : List P) (arg_view_cache_list : V)
    (arg_gap_penalty : G) : Except RefinerCheckError R :=
  if arg_proteins.length ≠ num_entries arg_alignment then
    Except.error RefinerCheckError.mismatched_protein_list_entries
  else
    Except.ok (iterate_step_for_alignment_split_list arg_alignment arg_proteins
      arg_view_cache_list arg_gap_penalty)

def alignment_refiner_iterate_step_for_alignment_split {A P V G R : Type}
    (num_entries : A → ℕ)
    (refine_split : A → List P → V → G → AlignmentSplit → R)
    (arg_alignment : A) (arg_proteins : List P) (arg_view_cache_list : V)
    (arg_gap_penalty : G) (arg_alignment_split : AlignmentSplit) :
    Except RefinerCheckError R :=
  if arg_alignment_split.get_num_entries ≠ num_entries arg_alignment then
    Except.error RefinerCheckError.mismatched_split_entries
  else
    Except.ok (refine_split arg_alignment arg_proteins arg_view_cache_list
      arg_gap_penalty arg_alignment_split)

/-- C8: `iterate_step` throws whenever the protein list's size differs from
the alignment's entry count, `iterate_step_for_alignment_split` throws
whenever the split's entry count differs from the alignment's, and in both
cases the result is the same for every possible continuation, so no result
alignment is produced or touched before the throw. -/
theorem alignment_refiner_entry_count_mismatch_throws :
    (∀ (A P V G R : Type) (num_entries : A → ℕ)
        (work : A → List P → V → G → R) (aln : A) (proteins : List P)
        (vcl : V) (gp : G),
      proteins.length ≠ num_entries aln →
        alignment_refiner_iterate_step num_entries work aln proteins vcl gp
          = Except.error RefinerCheckError.mismatched_protein_list_entries)
    ∧ (∀ (A P V G R : Type) (num_entries : A → ℕ)
        (work work' : A → List P → V → G → R) (aln : A) (proteins : List P)
        (vcl : V) (gp : G),
      proteins.length ≠ num_entries aln →
        alignment_refiner_iterate_step num_entries work aln proteins vcl gp
          = alignment_refiner_iterate_step num_entries work' aln proteins vcl gp)
    ∧ (∀ (A P V G R : Type) (num_entries : A → ℕ)
        (work : A → List P → V → G → AlignmentSplit → R) (aln : A)
        (proteins : List P) (vcl : V) (gp : G) (split : AlignmentSplit),
      split.get_num_entries ≠ num_entries aln →
        alignment_refiner_iterate_step_for_alignment_split num_entries work
            aln proteins vcl gp split
          = Except.error RefinerCheckError.mismatched_split_entries)
    ∧ (∀ (A P V G R : Type) (num_entries : A → ℕ)
        (work work' : A → List P → V → G → AlignmentSplit → R) (aln : A)
        (proteins : List P) (vcl : V) (gp : G) (split : AlignmentSplit),
      split.get_num_entries ≠ num_entries aln →
        alignment_refiner_iterate_step_for_alignment_split num_entries work
            aln proteins vcl gp split
          = alignment_refiner_iterate_step_for_alignment_split num_entries
              work' aln proteins vcl gp split) := by
  refine ⟨?_, ?_, ?_, ?_⟩
  · intro A P V G R num_entries work aln proteins vcl gp h
    rw [alignment_refiner_iterate_step, if_pos h]
  · intro A P V G R num_entries work work' aln proteins vcl gp h
    rw [alignment_refiner_iterate_step, alignment_refiner_iterate_step,
      if_pos h, if_pos h]
  · intro A P V G R num_entries work aln proteins vcl gp split h
    rw [alignment_refiner_iterate_step_for_alignment_split, if_pos h]
  · intro A P V G R num_entries work work' aln proteins vcl gp split h
    rw [alignment_refiner_iterate_step_for_alignment_split,
      alignment_refiner_iterate_step_for_alignment_split, if_pos h, if_pos h]

/-! ## The accumulation walk of `calculate_log_score`

Translated from the "ACCUMULATE NEW SCORES ALONG FINAL PATH" loop of
`cath::calculate_log_score` in `source/uni/ssap/ssap.cpp`.  The per-column
scores summed by the walk come from `final_score_matrix` (filled by the
first phase of the function), abstracted here as a function from (offset-1
b-position, offset-1 a-position) to scores; the gap penalty
`get_gap_penalty(entry_querier)` is a parameter.  The loop state carries
`prev_had_both_posns`, `is_first_with_both_posns`, the previous aligned
positions, `num_aligned_pairs` and `maxscore`; it is instrumented with the
running column index and the list of column indices at which a gap penalty
was subtracted. -/

def has_both_positions (col : AlignmentColumn) : Bool :=
  col.1.isSome && col.2.isSome

structure LogScoreWalkState where
  prev_had_both_posns : Bool
  is_first_with_both_posns : Bool
  prev_a_position : ℕ
  prev_b_position : ℕ
  num_aligned_pairs : ℕ
  maxscore : ℤ
  charged : List ℕ
  idx : ℕ
  deriving Repr

def log_score_walk_init : LogScoreWalkState :=
  { prev_had_both_posns := false
    is_first_with_both_posns := true
    prev_a_position := 0
    prev_b_position := 0
    num_aligned_pairs := 0
    maxscore := 0
    charged := []
    idx := 0 }

/-- The source's gap condition for an aligned column: not the first aligned
column, and (the immediately preceding column lacked both positions, or
either position fails to advance by exactly one). -/
def walk_gap_charged (s : LogScoreWalkState) (a_position b_position : ℕ) : Bool :=
  !s.is_first_with_both_posns
    && (!s.prev_had_both_posns
        || decide (a_position ≠ s.prev_a_position + 1)
        || decide (b_position ≠ s.prev_b_position + 1))

def log_score_walk_step (final_score_matrix : ℕ → ℕ → ℤ) (gap_penalty : ℤ)
    (s : LogScoreWalkState) (col : AlignmentColumn) : LogScoreWalkState :=
  match col with
  | (some a_position, some b_position) =>
      { prev_had_both_posns := true
        is_first_with_both_posns := false
        prev_a_position := a_position
        prev_b_position := b_position
        num_aligned_pairs := s.num_aligned_pairs + 1
        maxscore := s.maxscore + final_score_matrix b_position a_position
          - (if walk_gap_charged s a_position b_position then gap_penalty else 0)
        charged := if walk_gap_charged s a_position b_position
          then s.charged ++ [s.idx] else s.charged
        idx := s.idx + 1 }
  | _ =>
      { s with prev_had_both_posns := false, idx := s.idx + 1 }

def calculate_log_score_walk (final_score_matrix : ℕ → ℕ → ℤ)
    (gap_penalty : ℤ) (prm_alignment : List AlignmentColumn) : LogScoreWalkState :=
  prm_alignment.foldl (log_score_walk_step final_score_matrix gap_penalty)
    log_score_walk_init

/-- The `maxscore = max(0, maxscore)` clamp applied by `calculate_log_score`
after the walk and before any log score is computed. -/
def clamped_log_score_total (final_score_matrix : ℕ → ℕ → ℤ)
    (gap_penalty : ℤ) (prm_alignment : List AlignmentColumn) : ℤ :=
  max 0 (calculate_log_score_walk final_score_matrix gap_penalty
    prm_alignment).maxscore

/-- Whether column `k` immediately follows the previous aligned column with
both positions advancing by exactly one: the column right before it exists,
has both positions, and both of column `k`'s positions are the predecessor's
plus one.  Written from the claim's wording. -/
def follows_prev_aligned_plus_one (aln : List AlignmentColumn) (k : ℕ) : Bool :=
  match k with
  | 0 => false
  | kk + 1 =>
    match aln[kk + 1]?, aln[kk]? with
    | some (some a_position, some b_position), some (some prev_a, some prev_b) =>
        decide (a_position = prev_a + 1) && decide (b_position = prev_b + 1)
    | _, _ => false

/-- The claim's characterisation of a gap charge at column `k`: the column
has both positions present, it is not the first such column, and it does not
immediately follow the previous aligned column with both positions advancing
by exactly one. -/
def spec_gap_charged (aln : List AlignmentColumn) (k : ℕ) : Bool :=
  match aln[k]? with
  | some col =>
      has_both_positions col
        && (aln.take k).any has_both_positions
        && ! follows_prev_aligned_plus_one aln k
  | none => false

lemma calculate_log_score_walk_append (fsm : ℕ → ℕ → ℤ) (g : ℤ)
    (xs : List AlignmentColumn) (c : AlignmentColumn) :
    calculate_log_score_walk fsm g (xs ++ [c])
      = log_score_walk_step fsm g (calculate_log_score_walk fsm g xs) c := by
  unfold calculate_log_score_walk
  rw [List.foldl_append]
  rfl

lemma log_score_walk_invariant (fsm : ℕ → ℕ → ℤ) (g : ℤ)
    (aln : List AlignmentColumn) :
    (calculate_log_score_walk fsm g aln).idx = aln.length
    ∧ (calculate_log_score_walk fsm g aln).is_first_with_both_posns
        = ! aln.any has_both_positions
    ∧ (calculate_log_score_walk fsm g aln).prev_had_both_posns
        = aln.getLast?.elim false has_both_positions
    ∧ (∀ pa pb : ℕ, aln.getLast? = some (some pa, some pb) →
        (calculate_log_score_walk fsm g aln).prev_a_position = pa
        ∧ (calculate_log_score_walk fsm g aln).prev_b_position = pb) := by
  induction aln using List.reverseRecOn with
  | nil =>
    refine ⟨rfl, rfl, rfl, ?_⟩
    intro pa pb h
    simp at h
  | append_singleton xs c ih =>
    obtain ⟨ih1, ih2, ih3, ih4⟩ := ih
    rw [calculate_log_score_walk_append]
    rcases c with ⟨oa, ob⟩
    rcases oa with _ | a <;> rcases ob with _ | b
    · refine ⟨?_, ?_, ?_, ?_⟩
      · simp [log_score_walk_step, ih1]
      · simp [log_score_walk_step, ih2, List.any_append, has_both_positions]
      · simp [log_score_walk_step, List.getLast?_concat, has_both_positions]
      · intro pa pb h
        rw [List.getLast?_concat] at h
        simp at h
    · refine ⟨?_, ?_, ?_, ?_⟩
      · simp [log_score_walk_step, ih1]
      · simp [log_score_walk_step, ih2, List.any_append, has_both_positions]
      · simp [log_score_walk_step, List.getLast?_concat, has_both_positions]
      · intro pa pb h
        rw [List.getLast?_concat] at h
        simp at h
    · refine ⟨?_, ?_, ?_, ?_⟩
      · simp [log_score_walk_step, ih1]
      · simp [log_score_walk_step, ih2, List.any_append, has_both_positions]
      · simp [log_score_walk_step, List.getLast?_concat, has_both_positions]
      · intro pa pb h
        rw [List.getLast?_concat] at h
        simp at h
    · refine ⟨?_, ?_, ?_, ?_⟩
      · simp [log_score_walk_step, ih1]
      · simp [log_score_walk_step, List.any_append, has_both_positions]
      · simp [log_score_walk_step, List.getLast?_concat, has_both_positions]
      · intro pa pb h
        rw [List.getLast?_concat] at h
        simp only [Option.some.injEq, Prod.mk.injEq] at h
        obtain ⟨ha, hb⟩ := h
        constructor
        · simp [log_score_walk_step, ha.symm]
        · simp [log_score_walk_step, hb.symm]

lemma follows_prev_aligned_plus_one_append_lt (xs : List AlignmentColumn)
    (c : AlignmentColumn) (k : ℕ) (hk : k < xs.length) :
    follows_prev_aligned_plus_one (xs ++ [c]) k
      = follows_prev_aligned_plus_one xs k := by
  cases k with
  | zero => rfl
  | succ kk =>
    simp only [follows_prev_aligned_plus_one, List.getElem?_append_left hk,
      List.getElem?_append_left (show kk < xs.length by omega)]

lemma spec_gap_charged_append_lt (xs : List AlignmentColumn)
    (c : AlignmentColumn) (k : ℕ) (hk : k < xs.length) :
    spec_gap_charged (xs ++ [c]) k = spec_gap_charged xs k := by
  unfold spec_gap_charged
  rw [List.getElem?_append_left hk, List.take_append_of_le_length hk.le,
    follows_prev_aligned_plus_one_append_lt xs c k hk]

lemma spec_gap_charged_append_last (xs : List AlignmentColumn)
    (c : AlignmentColumn) :
    spec_gap_charged (xs ++ [c]) xs.length
      = (has_both_positions c
          && xs.any has_both_positions
          && ! follows_prev_aligned_plus_one (xs ++ [c]) xs.length) := by
  unfold spec_gap_charged
  rw [List.getElem?_concat_length, List.take_left]

/-- The summand an aligned column contributes to the walk's accumulation:
the `final_score_matrix` entry at its (b, a) destination. -/
def aligned_pair_score (final_score_matrix : ℕ → ℕ → ℤ) :
    AlignmentColumn → Option ℤ :=
  fun col =>
    match col with
    | (some a_position, some b_position) =>
        some (final_score_matrix b_position a_position)
    | _ => none

lemma walk_gap_charged_eq_spec (fsm : ℕ → ℕ → ℤ) (g : ℤ)
    (xs : List AlignmentColumn) (a b : ℕ) :
    walk_gap_charged (calculate_log_score_walk fsm g xs) a b
      = spec_gap_charged (xs ++ [(some a, some b)]) xs.length := by
  obtain ⟨hidx, hfirst, hprev, hpos⟩ := log_score_walk_invariant fsm g xs
  have hspec : spec_gap_charged (xs ++ [(some a, some b)]) xs.length
      = (xs.any has_both_positions
          && ! follows_prev_aligned_plus_one (xs ++ [(some a, some b)])
                xs.length) := by
    rw [spec_gap_charged_append_last]
    simp [has_both_positions]
  rw [hspec, walk_gap_charged, hfirst, hprev, Bool.not_not]
  cases hm : xs.length with
  | zero =>
    have hxe : xs = [] := List.length_eq_zero.mp hm
    subst hxe
    simp
  | succ m =>
    have hm' : m < xs.length := by omega
    congr 1
    rcases hxs : xs.getLast? with _ | col
    · rw [List.getLast?_eq_getElem?] at hxs
      rw [show xs.length - 1 = m by omega, List.getElem?_eq_getElem hm'] at hxs
      simp at hxs
    · have hxs' : xs[m]? = some col := by
        rw [List.getLast?_eq_getElem?, show xs.length - 1 = m by omega] at hxs
        exact hxs
      have hc1 : (xs ++ [((some a : Option ℕ), (some b : Option ℕ))])[m + 1]?
          = some (some a, some b) := by
        rw [← hm]
        exact List.getElem?_concat_length _ _
      have hc0 : (xs ++ [((some a : Option ℕ), (some b : Option ℕ))])[m]?
          = xs[m]? := List.getElem?_append_left hm'
      rcases col with ⟨poa, pob⟩
      rcases poa with _ | pa <;> rcases pob with _ | pb
      · simp only [follows_prev_aligned_plus_one, hc1, hc0, hxs', hxs]
        simp [has_both_positions]
      · simp only [follows_prev_aligned_plus_one, hc1, hc0, hxs', hxs]
        simp [has_both_positions]
      · simp only [follows_prev_aligned_plus_one, hc1, hc0, hxs', hxs]
        simp [has_both_positions]
      · obtain ⟨hpa, hpb⟩ := hpos pa pb hxs
        simp only [follows_prev_aligned_plus_one, hc1, hc0, hxs', hxs, hpa, hpb]
        simp [has_both_positions, decide_not]

lemma calculate_log_score_walk_characterisation (fsm : ℕ → ℕ → ℤ) (g : ℤ)
    (aln : List AlignmentColumn) :
    (calculate_log_score_walk fsm g aln).charged
      = (List.range aln.length).filter (spec_gap_charged aln)
    ∧ (calculate_log_score_walk fsm g aln).maxscore
      = (aln.filterMap (aligned_pair_score fsm)).sum
        - g * (((List.range aln.length).filter (spec_gap_charged aln)).length) := by
  induction aln using List.reverseRecOn with
  | nil =>
    exact ⟨rfl, by simp [calculate_log_score_walk, log_score_walk_init]⟩
  | append_singleton xs c ih =>
    obtain ⟨ihc, ihm⟩ := ih
    obtain ⟨hidx, hfirst, hprev, hpos⟩ := log_score_walk_invariant fsm g xs
    have hlen : (xs ++ [c]).length = xs.length + 1 := by simp
    have hrange : (List.range (xs ++ [c]).length).filter
        (spec_gap_charged (xs ++ [c]))
          = (List.range xs.length).filter (spec_gap_charged xs)
            ++ (if spec_gap_charged (xs ++ [c]) xs.length
                then [xs.length] else []) := by
      rw [hlen, List.range_succ, List.filter_append]
      congr 1
      · apply List.filter_congr
        intro k hk
        exact spec_gap_charged_append_lt xs c k (List.mem_range.mp hk)
      · cases hsp : spec_gap_charged (xs ++ [c]) xs.length <;>
          simp [List.filter, hsp]
    rw [calculate_log_score_walk_append]
    rcases c with ⟨oa, ob⟩
    rcases oa with _ | a <;> rcases ob with _ | b
    · have hspecn : spec_gap_charged (xs ++ [((none : Option ℕ), (none : Option ℕ))])
          xs.length = false := by
        rw [spec_gap_charged_append_last]
        simp [has_both_positions]
      constructor
      · simp only [log_score_walk_step]
        rw [ihc, hrange, hspecn]
        simp
      · simp only [log_score_walk_step]
        rw [ihm, hrange, hspecn, List.filterMap_append]
        simp [aligned_pair_score]
    · have hspecn : spec_gap_charged
          (xs ++ [((none : Option ℕ), (some b : Option ℕ))]) xs.length = false := by
        rw [spec_gap_charged_append_last]
        simp [has_both_positions]
      constructor
      · simp only [log_score_walk_step]
        rw [ihc, hrange, hspecn]
        simp
      · simp only [log_score_walk_step]
        rw [ihm, hrange, hspecn, List.filterMap_append]
        simp [aligned_pair_score]
    · have hspecn : spec_gap_charged
          (xs ++ [((some a : Option ℕ), (none : Option ℕ))]) xs.length = false := by
        rw [spec_gap_charged_append_last]
        simp [has_both_positions]
      constructor
      · simp only [log_score_walk_step]
        rw [ihc, hrange, hspecn]
        simp
      · simp only [log_score_walk_step]
        rw [ihm, hrange, hspecn, List.filterMap_append]
        simp [aligned_pair_score]
    · have hgap := walk_gap_charged_eq_spec fsm g xs a b
      constructor
      · simp only [log_score_walk_step]
        rw [hgap, ihc, hidx, hrange]
        by_cases hb : spec_gap_charged
            (xs ++ [((some a : Option ℕ), (some b : Option ℕ))]) xs.length = true
        · rw [if_pos hb, if_pos hb]
        · rw [if_neg hb, if_neg hb, List.append_nil]
      · simp only [log_score_walk_step]
        rw [hgap, ihm, hrange, List.filterMap_append]
        by_cases hb : spec_gap_charged
            (xs ++ [((some a : Option ℕ), (some b : Option ℕ))]) xs.length = true
        · rw [if_pos hb, if_pos hb]
          simp only [aligned_pair_score, List.filterMap_cons, List.filterMap_nil,
            List.sum_append, List.sum_cons, List.sum_nil, List.length_append,
            List.length_cons, List.length_nil]
          push_cast
          ring
        · rw [if_neg hb, if_neg hb, List.append_nil]
          simp only [aligned_pair_score, List.filterMap_cons, List.filterMap_nil,
            List.sum_append, List.sum_cons, List.sum_nil]
          ring

lemma spec_gap_charged_implies_not_first (aln : List AlignmentColumn) (k : ℕ)
    (h : spec_gap_charged aln k = true) :
    (aln.take k).any has_both_positions = true := by
  unfold spec_gap_charged at h
  cases hcol : aln[k]? with
  | none => rw [hcol] at h; exact absurd h (by simp)
  | some col =>
    rw [hcol] at h
    simp only [Bool.and_eq_true] at h
    exact h.1.2

/-- C7: in `calculate_log_score`'s accumulation walk, a gap penalty is
subtracted at exactly those columns that have both positions present, are
not the first such column, and do not immediately follow the previous
aligned column with both positions advancing by exactly one; in particular
the very first aligned column is never charged (every charged column has an
aligned column before it); the accumulated total is the aligned columns'
scores minus the gap penalty times the number of charged columns; and the
total is clamped to at least 0 before any normalised log score is computed. -/
theorem calculate_log_score_gap_charging (final_score_matrix : ℕ → ℕ → ℤ)
    (gap_penalty : ℤ) (prm_alignment : List AlignmentColumn) :
    (calculate_log_score_walk final_score_matrix gap_penalty
        prm_alignment).charged
      = (List.range prm_alignment.length).filter (spec_gap_charged prm_alignment)
    ∧ (∀ k : ℕ,
        k ∈ (calculate_log_score_walk final_score_matrix gap_penalty
          prm_alignment).charged →
        (prm_alignment.take k).any has_both_positions = true)
    ∧ (calculate_log_score_walk final_score_matrix gap_penalty
        prm_alignment).maxscore
      = (prm_alignment.filterMap (aligned_pair_score final_score_matrix)).sum
        - gap_penalty
          * (((List.range prm_alignment.length).filter
              (spec_gap_charged prm_alignment)).length)
    ∧ 0 ≤ clamped_log_score_total final_score_matrix gap_penalty
        prm_alignment := by
  obtain ⟨h1, h2⟩ := calculate_log_score_walk_characterisation
    final_score_matrix gap_penalty prm_alignment
  refine ⟨h1, ?_, h2, le_max_left 0 _⟩
  intro k hk
  rw [h1] at hk
  exact spec_gap_charged_implies_not_first prm_alignment k
    (List.mem_filter.mp hk).2

end CathTools
